import Mathlib

/-!
Verification of the shogun-ipfs backup engine.

This file gives a shallow embedding of the snapshot / backup / restore /
compare / delete pipeline of the repository (FileBackupAdapter,
PinataService, IpfsService, Encryption) and proves or refutes the frozen
specification claims about it.

Modelling conventions:
- JavaScript byte buffers are List Nat with every element below 256.
- JavaScript strings are lists of Unicode code points (List Nat).
- Node's Buffer#toString with the utf8 and base64 encodings, and the
  corresponding Buffer.from decodings, are implemented below.
- The filesystem is a pure finite tree (FsEntry); filesystem reads never
  fail, so the walk's I/O error wrapper is not reachable in the model.
- Randomness (crypto.randomBytes for the per-file iv) is an oracle,
  indexed by the relative path of the file whose encryption draws it.
- The AES cipher provided by node:crypto (an external library, not part
  of this repository) is abstracted as a CipherModel record; theorems
  about encryption take the standard AEAD contract as hypotheses.
- Storage backends are oracles: their network results are inputs to the
  model functions, and a backendCalled flag records whether the model
  reached a network call.
-/

/-! ## Bytes, base64 (Buffer#toString base64 / Buffer.from base64) -/

/-- Byte sequences: each element is a byte value below 256. -/
abbrev Bytes := List Nat

/-- Standard base64 alphabet: sextet value to ASCII code. -/
def b64tbl (n : Nat) : Nat :=
  if n < 26 then 65 + n
  else if n < 52 then 97 + (n - 26)
  else if n < 62 then 48 + (n - 52)
  else if n = 62 then 43
  else 47

/-- Inverse base64 alphabet: ASCII code to sextet value; the pad char 61
and every other character decode to none (Node's forgiving decoder skips
them). -/
def b64inv (c : Nat) : Option Nat :=
  if 65 ≤ c ∧ c ≤ 90 then some (c - 65)
  else if 97 ≤ c ∧ c ≤ 122 then some (c - 97 + 26)
  else if 48 ≤ c ∧ c ≤ 57 then some (c - 48 + 52)
  else if c = 43 then some 62
  else if c = 47 then some 63
  else none

/-- Base64 encoding of a byte sequence, as the list of ASCII codes of the
encoded string, with pad characters (61) as produced by
Buffer#toString with the base64 encoding. -/
def b64encode : Bytes → List Nat
  | [] => []
  | [a] => [b64tbl (a / 4), b64tbl (a % 4 * 16), 61, 61]
  | [a, b] => [b64tbl (a / 4), b64tbl (a % 4 * 16 + b / 16), b64tbl (b % 16 * 4), 61]
  | a :: b :: c :: rest =>
      b64tbl (a / 4) :: b64tbl (a % 4 * 16 + b / 16) ::
      b64tbl (b % 16 * 4 + c / 64) :: b64tbl (c % 64) :: b64encode rest

/-- Reassemble bytes from a list of sextet values (groups of four sextets
give three bytes; trailing groups of two or three give one or two). -/
def b64unsex : List Nat → Bytes
  | x :: y :: z :: w :: rest =>
      (x * 4 + y / 16) :: (y % 16 * 16 + z / 4) :: (z % 4 * 64 + w) :: b64unsex rest
  | [x, y, z] => [x * 4 + y / 16, y % 16 * 16 + z / 4]
  | [x, y] => [x * 4 + y / 16]
  | _ => []

/-- Base64 decoding as performed by Buffer.from with the base64 encoding:
non-alphabet characters (including pads) are skipped, then sextets are
reassembled into bytes. -/
def b64decode (s : List Nat) : Bytes :=
  b64unsex (s.filterMap b64inv)

theorem b64inv_b64tbl (s : Nat) (hs : s < 64) : b64inv (b64tbl s) = some s := by
  revert s hs; decide

theorem b64inv_pad : b64inv 61 = none := by decide

/-- Base64 round-trip: decoding an encoded byte sequence recovers it. -/
theorem b64decode_b64encode (l : Bytes) (h : ∀ b ∈ l, b < 256) :
    b64decode (b64encode l) = l := by
  induction l using b64encode.induct with
  | case1 => rfl
  | case2 a =>
      have ha : a < 256 := h a (by simp)
      simp only [b64encode, b64decode, List.filterMap]
      rw [b64inv_b64tbl _ (by omega), b64inv_b64tbl _ (by omega)]
      simp [b64inv_pad, b64unsex]
      omega
  | case3 a b =>
      have ha : a < 256 := h a (by simp)
      have hb : b < 256 := h b (by simp)
      simp only [b64encode, b64decode, List.filterMap]
      rw [b64inv_b64tbl _ (by omega), b64inv_b64tbl _ (by omega),
        b64inv_b64tbl _ (by omega)]
      simp [b64inv_pad, b64unsex]
      constructor
      · omega
      · omega
  | case4 a b c rest ih =>
      have ha : a < 256 := h a (by simp)
      have hb : b < 256 := h b (by simp)
      have hc : c < 256 := h c (by simp)
      have hrest : ∀ x ∈ rest, x < 256 := by
        intro x hx; exact h x (by simp [hx])
      simp only [b64encode, b64decode, List.filterMap] at *
      rw [b64inv_b64tbl _ (by omega), b64inv_b64tbl _ (by omega),
        b64inv_b64tbl _ (by omega), b64inv_b64tbl _ (by omega)]
      simp only [b64unsex, List.cons.injEq]
      exact ⟨by omega, by omega, by omega, ih hrest⟩

/-- Base64 encoding of a nonempty buffer is a nonempty string. -/
theorem b64encode_ne_nil (l : Bytes) (h : l ≠ []) : b64encode l ≠ [] := by
  match l with
  | [] => exact absurd rfl h
  | [a] => simp [b64encode]
  | [a, b] => simp [b64encode]
  | a :: b :: c :: rest => simp [b64encode]

/-! ## UTF-8 (Buffer#toString utf8 / writing a JS string to a file) -/

/-- UTF-8 encoding of one Unicode code point (the byte sequence Node
writes for it). -/
def utf8EncodeChar (c : Nat) : Bytes :=
  if c < 128 then [c]
  else if c < 2048 then [192 + c / 64, 128 + c % 64]
  else if c < 65536 then [224 + c / 4096, 128 + c / 64 % 64, 128 + c % 64]
  else [240 + c / 262144, 128 + c / 4096 % 64, 128 + c / 64 % 64, 128 + c % 64]

/-- UTF-8 encoding of a JS string (code point list), as written by
fs.writeFile on a string argument. -/
def utf8Encode (s : List Nat) : Bytes :=
  (s.map utf8EncodeChar).flatten

/-- Continuation byte test for the UTF-8 decoder. -/
def utf8Cont (b : Nat) : Bool := 128 ≤ b ∧ b ≤ 191

/-- Admissible second byte after a three-byte leader (WHATWG ranges,
ruling out overlong forms and surrogates). -/
def utf8Cont2 (b b2 : Nat) : Bool :=
  if b = 224 then 160 ≤ b2 ∧ b2 ≤ 191
  else if b = 237 then 128 ≤ b2 ∧ b2 ≤ 159
  else utf8Cont b2

/-- Admissible second byte after a four-byte leader. -/
def utf8Cont3 (b b2 : Nat) : Bool :=
  if b = 240 then 144 ≤ b2 ∧ b2 ≤ 191
  else if b = 244 then 128 ≤ b2 ∧ b2 ≤ 143
  else utf8Cont b2

/-- UTF-8 decoding with U+FFFD replacement on malformed input, following
the WHATWG decoder used by Buffer#toString with the utf8 encoding. -/
def utf8Decode : Bytes → List Nat
  | [] => []
  | b :: rest =>
    if b < 128 then b :: utf8Decode rest
    else if 194 ≤ b ∧ b ≤ 223 then
      match rest with
      | [] => [65533]
      | b2 :: r2 =>
        if utf8Cont b2 then ((b - 192) * 64 + (b2 - 128)) :: utf8Decode r2
        else 65533 :: utf8Decode (b2 :: r2)
    else if 224 ≤ b ∧ b ≤ 239 then
      match rest with
      | [] => [65533]
      | b2 :: r2 =>
        if utf8Cont2 b b2 then
          match r2 with
          | [] => [65533]
          | b3 :: r3 =>
            if utf8Cont b3 then
              (((b - 224) * 64 + (b2 - 128)) * 64 + (b3 - 128)) :: utf8Decode r3
            else 65533 :: utf8Decode (b3 :: r3)
        else 65533 :: utf8Decode (b2 :: r2)
    else if 240 ≤ b ∧ b ≤ 244 then
      match rest with
      | [] => [65533]
      | b2 :: r2 =>
        if utf8Cont3 b b2 then
          match r2 with
          | [] => [65533]
          | b3 :: r3 =>
            if utf8Cont b3 then
              match r3 with
              | [] => [65533]
              | b4 :: r4 =>
                if utf8Cont b4 then
                  ((((b - 240) * 64 + (b2 - 128)) * 64 + (b3 - 128)) * 64 + (b4 - 128))
                    :: utf8Decode r4
                else 65533 :: utf8Decode (b4 :: r4)
            else 65533 :: utf8Decode (b3 :: r3)
        else 65533 :: utf8Decode (b2 :: r2)
    else 65533 :: utf8Decode rest

/-! ## Read-stream chunking (fs.createReadStream with default 64 KiB
high-water mark, concatenated by Buffer.concat) -/

/-- Chunking of a buffer into successive 65536-byte stream chunks. -/
def chunkBytes : Bytes → List Bytes
  | [] => []
  | a :: rest => (a :: rest).take 65536 :: chunkBytes ((a :: rest).drop 65536)
termination_by l => l.length
decreasing_by simp_wf; omega

/-- Concatenating the stream chunks recovers the file content. -/
theorem chunkBytes_flatten (l : Bytes) : (chunkBytes l).flatten = l := by
  induction l using chunkBytes.induct with
  | case1 => rw [chunkBytes]; rfl
  | case2 a rest ih =>
      rw [chunkBytes]
      simp only [List.flatten_cons, ih, List.take_append_drop]

/-! ## Path helpers (path.extname, path.basename, path.join) -/

/-- Lower-casing of one character, as String#toLowerCase acts on ASCII. -/
def lowerChar (c : Char) : Char :=
  if 65 ≤ c.toNat ∧ c.toNat ≤ 90 then Char.ofNat (c.toNat + 32) else c

/-- Helper for extname: scan the reversed character list for the last
dot of the last path segment. -/
def revExt : List Char → List Char → Option (List Char)
  | [], _ => none
  | '/' :: _, _ => none
  | '.' :: rest, acc =>
    match rest with
    | [] => none
    | '/' :: _ => none
    | _ :: _ => some ('.' :: acc)
  | c :: rest, acc => revExt rest (c :: acc)

/-- Model of path.extname: the suffix of the last path segment from its
last dot, or the empty string when there is none or the segment starts
with the dot. -/
def extname (s : String) : String :=
  match revExt s.toList.reverse [] with
  | some l => String.mk l
  | none => ""

/-- Model of path.basename for the plain paths the adapter passes: the
part after the last slash. -/
def pathBasename (s : String) : String :=
  String.mk ((s.toList.reverse.takeWhile (fun c => c ≠ '/')).reverse)

/-- Relative path formed by path.join with backslashes normalized to
slashes; with a nonempty base it inserts one slash. -/
def joinRel (base name : String) : String :=
  if base = "" then name else base ++ ("/") ++ name

/-- Binary file classification from FileBackupAdapter.isBinaryFile: a
fixed extension allowlist checked on the lower-cased extname. -/
def isBinaryFile (filename : String) : Bool :=
  let binaryExtensions : List String :=
    [".png", ".jpg", ".jpeg", ".gif", ".bmp", ".pdf", ".doc", ".docx",
     ".xls", ".xlsx", ".zip", ".rar", ".7z", ".tar", ".gz"]
  let ext := String.mk ((extname filename).toList.map lowerChar)
  binaryExtensions.contains ext

/-- Mime type table from FileBackupAdapter.getMimeType. -/
def getMimeType (filename : String) : String :=
  let ext := String.mk ((extname filename).toList.map lowerChar)
  if ext = ".png" then "image/png"
  else if ext = ".jpg" then "image/jpeg"
  else if ext = ".jpeg" then "image/jpeg"
  else if ext = ".gif" then "image/gif"
  else if ext = ".bmp" then "image/bmp"
  else if ext = ".pdf" then "application/pdf"
  else "application/octet-stream"

/-! ## Options, cipher abstraction, file records -/

/-- Encryption options as carried in BackupOptions.encryption. -/
structure EncryptionSettings where
  enabled : Bool
  key : List Nat
  algorithm : String

/-- Options accepted by FileBackupAdapter.backup and restore. Exclude
patterns are modelled as the predicates name.match induces. -/
structure BackupOptions where
  excludePatterns : Option (List (String → Bool)) := none
  maxFileSize : Option Nat := none
  encryption : Option EncryptionSettings := none

/-- Exclusion check from processDirectory: some pattern matches the
entry name. -/
def isExcluded (opts : BackupOptions) (name : String) : Bool :=
  match opts.excludePatterns with
  | some ps => ps.any (fun p => p name)
  | none => false

/-- Size skip from processDirectory: maxFileSize is set, truthy (hence
nonzero) and the file is strictly larger. -/
def sizeSkipped (opts : BackupOptions) (size : Nat) : Bool :=
  match opts.maxFileSize with
  | some m => decide (m ≠ 0) && decide (size > m)
  | none => false

/-- Abstraction of the node:crypto cipher used by the Encryption class
(an external library). keyDerive models createHash sha256 over the
passphrase; enc models createCipheriv (returning ciphertext and, for
AEAD algorithms, the auth tag); dec models createDecipheriv followed by
setAuthTag and final, which throws on authentication failure. -/
structure CipherModel where
  keyDerive : List Nat → Bytes
  enc : Bytes → Bytes → Bytes → Bytes × Option Bytes
  dec : Bytes → Bytes → Bytes → Option Bytes → Except String Bytes

/-- Wire form of one file in a snapshot: either a plaintext record
(type binary or text, content as a JS string) or an encrypted record
(fields base64-encoded, authTag dropped when undefined). -/
inductive FileRecord where
  | plain (type : String) (content : List Nat) (mimeType : String)
  | encrypted (ciphertext : List Nat) (iv : List Nat)
      (authTag : Option (List Nat)) (mimeType : String)
deriving DecidableEq, Repr

/-- Encrypted record construction shared by processSmallFile and
processLargeFile: encrypt the whole buffered content, then base64-encode
ciphertext, iv and (when present) the auth tag. -/
def mkEncryptedRecord (cm : CipherModel) (e : EncryptionSettings) (iv : Bytes)
    (name : String) (content : Bytes) : FileRecord :=
  let key := cm.keyDerive e.key
  let r := cm.enc key iv content
  FileRecord.encrypted (b64encode r.1) (b64encode iv) (Option.map b64encode r.2)
    (getMimeType name)

/-- Plaintext record construction: binary files are stored base64,
text files are stored as the utf8 decoding of their bytes. -/
def plainRecord (name : String) (content : Bytes) : FileRecord :=
  FileRecord.plain (if isBinaryFile name then "binary" else "text")
    (if isBinaryFile name then b64encode content else utf8Decode content)
    (getMimeType name)

/-- Model of FileBackupAdapter.processSmallFile: single-shot readFile,
then either the encrypted or the plaintext record. -/
def processSmallFileRec (cm : CipherModel) (opts : BackupOptions)
    (ivOf : String → Bytes) (relativePath name : String) (content : Bytes) :
    FileRecord :=
  match opts.encryption with
  | some e =>
      if e.enabled && decide (e.key ≠ []) then
        mkEncryptedRecord cm e (ivOf relativePath) name content
      else plainRecord name content
  | none => plainRecord name content

/-- Model of FileBackupAdapter.processLargeFile: when encrypting it still
loads the full content with readFile; otherwise it reads the file as a
stream of chunks and concatenates them with Buffer.concat before
producing the record. -/
def processLargeFileRec (cm : CipherModel) (opts : BackupOptions)
    (ivOf : String → Bytes) (relativePath name : String) (content : Bytes) :
    FileRecord :=
  match opts.encryption with
  | some e =>
      if e.enabled && decide (e.key ≠ []) then
        mkEncryptedRecord cm e (ivOf relativePath) name content
      else
        FileRecord.plain (if isBinaryFile name then "binary" else "text")
          (if isBinaryFile name then b64encode (chunkBytes content).flatten
           else utf8Decode (chunkBytes content).flatten)
          (getMimeType name)
  | none =>
      FileRecord.plain (if isBinaryFile name then "binary" else "text")
        (if isBinaryFile name then b64encode (chunkBytes content).flatten
         else utf8Decode (chunkBytes content).flatten)
        (getMimeType name)

/-- Size dispatch from processDirectory: the streaming path is taken for
stats.size strictly above the 1 MiB constant. -/
def usesStreamingRead (size : Nat) : Bool :=
  decide (size > 1024 * 1024)

/-! ## Directory walk (processDirectory) -/

/-- A filesystem node: a file with its byte content, or a directory with
a readdir listing of named children. -/
inductive FsEntry where
  | file (content : Bytes)
  | dir (entries : List (String × FsEntry))
deriving Repr

/-- Model of FileBackupAdapter.processDirectory: walk the listing in
order, skip excluded names, recurse into directories (their records are
inserted before later siblings), skip oversized files, and dispatch each
kept file on the 1 MiB threshold. Keys are the slash-joined relative
paths. -/
def walkEntries (cm : CipherModel) (opts : BackupOptions) (ivOf : String → Bytes)
    (base : String) : List (String × FsEntry) → List (String × FileRecord)
  | [] => []
  | (name, e) :: rest =>
    if isExcluded opts name then walkEntries cm opts ivOf base rest
    else
      match e with
      | FsEntry.dir es =>
          walkEntries cm opts ivOf (joinRel base name) es ++
            walkEntries cm opts ivOf base rest
      | FsEntry.file c =>
          if sizeSkipped opts c.length then walkEntries cm opts ivOf base rest
          else
            (joinRel base name,
              if usesStreamingRead c.length then
                processLargeFileRec cm opts ivOf (joinRel base name) name c
              else processSmallFileRec cm opts ivOf (joinRel base name) name c)
              :: walkEntries cm opts ivOf base rest

/-- Specification-side listing of every file of a tree with its relative
path and entry name, in walk order, with no filtering. -/
def treeFilesAll (base : String) : List (String × FsEntry) → List (String × String × Bytes)
  | [] => []
  | (name, FsEntry.file c) :: rest => (joinRel base name, name, c) :: treeFilesAll base rest
  | (name, FsEntry.dir es) :: rest =>
      treeFilesAll (joinRel base name) es ++ treeFilesAll base rest

/-- Every directory-entry name occurring anywhere in a tree. -/
def allEntryNames : List (String × FsEntry) → List String
  | [] => []
  | (name, FsEntry.file _) :: rest => name :: allEntryNames rest
  | (name, FsEntry.dir es) :: rest => name :: (allEntryNames es ++ allEntryNames rest)

/-! ## Restore (FileBackupAdapter.restore) -/

/-- Encryption context built at the top of restore: the derived key when
options carry enabled encryption with a truthy key, otherwise null. -/
def mkEncCtx (cm : CipherModel) (opts : BackupOptions) : Option Bytes :=
  match opts.encryption with
  | some e => if e.enabled && decide (e.key ≠ []) then some (cm.keyDerive e.key) else none
  | none => none

/-- Per-file body of the restore loop: decide which branch of the
conditional chain applies and produce the bytes written for this record,
or the error thrown. Encrypted records are taken when an encryption
context exists and ciphertext and iv are truthy (nonempty); otherwise
the record falls through to the type checks, where an encrypted record
(which has no type field) fails as invalid. Plaintext branches also
require truthy content. -/
def writeOne (cm : CipherModel) (encKey : Option Bytes) :
    FileRecord → Except String Bytes
  | FileRecord.encrypted ct iv tag _ =>
    match encKey with
    | some key =>
        if ct ≠ [] ∧ iv ≠ [] then
          cm.dec key (b64decode iv) (b64decode ct) (Option.map b64decode tag)
        else Except.error ("Invalid file data")
    | none => Except.error ("Invalid file data")
  | FileRecord.plain t c _ =>
    if t = "binary" ∧ c ≠ [] then Except.ok (b64decode c)
    else if t = "text" ∧ c ≠ [] then Except.ok (utf8Encode c)
    else Except.error ("Invalid file data")

/-- Restore loop over the entries of the fetched snapshot data, in
insertion order: each successful record appends its written file; the
first failure stops the loop, keeps the files already written (no
rollback) and reports the per-file error. -/
def restoreFiles (cm : CipherModel) (encKey : Option Bytes) :
    List (String × FileRecord) → List (String × Bytes) × Option String
  | [] => ([], none)
  | (name, r) :: rest =>
    match writeOne cm encKey r with
    | Except.error e =>
        ([], some ("Failed to restore file " ++ name ++ (": ") ++ e))
    | Except.ok bytes =>
        let tail := restoreFiles cm encKey rest
        ((name, bytes) :: tail.1, tail.2)

/-- Model of FileBackupAdapter.restore: fetch the payload (its data
field modelled as an optional snapshot), fail with a validation error
when it is missing, run the restore loop, propagate its first error, and
return the literal true otherwise. -/
def restoreModel (cm : CipherModel) (opts : BackupOptions)
    (payload : Option (List (String × FileRecord))) : Except String Bool :=
  match payload with
  | none => Except.error ("Invalid backup data")
  | some data =>
    match (restoreFiles cm (mkEncCtx cm opts) data).2 with
    | some e => Except.error e
    | none => Except.ok true

/-- Files written by a restore call, for stating which paths were
touched even when the call failed midway. -/
def restoreWritten (cm : CipherModel) (opts : BackupOptions)
    (data : List (String × FileRecord)) : List (String × Bytes) :=
  (restoreFiles cm (mkEncCtx cm opts) data).1

/-! ## Backup assembly (FileBackupAdapter.backup tail) -/

/-- Upload result shape returned by StorageService.uploadJson. -/
structure UploadOutput where
  id : String
deriving DecidableEq, Repr

/-- Backup result shape; versionInfo is produced by the VersionManager,
which is outside the adapter, and carries no content needed by the
claims, so only hash and name are modelled. -/
structure BackupResultM where
  hash : String
  name : String
deriving DecidableEq, Repr

/-- Tail of FileBackupAdapter.backup after the walk and upload: reject a
missing result or a falsy (empty) id with the backend error, otherwise
the returned hash is exactly the id the storage call produced. -/
def backupFinalize (sourcePath : String) (uploadResult : Option UploadOutput) :
    Except String BackupResultM :=
  match uploadResult with
  | none => Except.error ("Storage service did not return a valid hash")
  | some r =>
      if r.id = "" then Except.error ("Storage service did not return a valid hash")
      else Except.ok { hash := r.id, name := pathBasename sourcePath }

/-- Full backup model: walk the tree, hand the snapshot to the storage
oracle, and finalize. The oracle maps the uploaded snapshot to the
result uploadJson resolved with (none models a missing result). -/
def backupModel (cm : CipherModel) (opts : BackupOptions) (ivOf : String → Bytes)
    (sourcePath : String) (tree : List (String × FsEntry))
    (upload : List (String × FileRecord) → Option UploadOutput) :
    Except String BackupResultM :=
  backupFinalize sourcePath (upload (walkEntries cm opts ivOf "" tree))

/-! ## JSON serialization (JSON.stringify on the record shapes) -/

/-- Code points of a Lean string literal. -/
def strCodes (s : String) : List Nat := s.toList.map Char.toNat

/-- Hex digit used by the unicode escapes of JSON.stringify. -/
def hexDigit (n : Nat) : Nat := if n < 10 then 48 + n else 87 + n

/-- Escaping of one character inside a JSON string literal, as
JSON.stringify performs it. -/
def jsonEscapeChar (c : Nat) : List Nat :=
  if c = 34 then [92, 34]
  else if c = 92 then [92, 92]
  else if c = 8 then [92, 98]
  else if c = 12 then [92, 102]
  else if c = 10 then [92, 110]
  else if c = 13 then [92, 114]
  else if c = 9 then [92, 116]
  else if c < 32 then [92, 117, 48, 48, hexDigit (c / 16), hexDigit (c % 16)]
  else [c]

/-- JSON string literal (code 34 is the double quote). -/
def jsonQuote (s : List Nat) : List Nat :=
  34 :: ((s.map jsonEscapeChar).flatten ++ [34])

/-- One key-value member of a JSON object (code 58 is the colon). -/
def jsonField (key : String) (value : List Nat) : List Nat :=
  jsonQuote (strCodes key) ++ 58 :: value

/-- JSON.stringify of a FileRecord as the adapter builds it, keys in
insertion order (codes 123, 125, 44 are braces and comma); an undefined
authTag is dropped by JSON.stringify. -/
def serializeFileRecord : FileRecord → List Nat
  | FileRecord.plain t c m =>
      [123] ++ jsonField ("type") (jsonQuote (strCodes t)) ++ [44] ++
        jsonField ("content") (jsonQuote c) ++ [44] ++
        jsonField ("mimeType") (jsonQuote (strCodes m)) ++ [125]
  | FileRecord.encrypted ct iv tag m =>
      [123] ++ jsonField ("isEncrypted") (strCodes ("true")) ++ [44] ++
        jsonField ("encrypted") (jsonQuote ct) ++ [44] ++
        jsonField ("iv") (jsonQuote iv) ++
        (match tag with
         | some tg => [44] ++ jsonField ("authTag") (jsonQuote tg)
         | none => []) ++ [44] ++
        jsonField ("mimeType") (jsonQuote (strCodes m)) ++ [125]

/-! ## Detailed comparison (FileBackupAdapter.compareDetailed) -/

/-- Local record shape built by compareDetailed for each regular file of
the source directory: a type tag and the base64 rendering of the
content; note that it carries no mimeType and base64-encodes text files
too, unlike the records backup stores. -/
structure LocalRec where
  type : String
  content : List Nat
deriving DecidableEq, Repr

/-- JSON.stringify of a compareDetailed local record. -/
def serializeLocalRec (r : LocalRec) : List Nat :=
  [123] ++ jsonField ("type") (jsonQuote (strCodes r.type)) ++ [44] ++
    jsonField ("content") (jsonQuote r.content) ++ [125]

/-- Local snapshot view built by compareDetailed: a non-recursive readdir
of the source path that skips directories and base64-encodes every
file. -/
def cdLocalView : List (String × FsEntry) → List (String × LocalRec)
  | [] => []
  | (_, FsEntry.dir _) :: rest => cdLocalView rest
  | (name, FsEntry.file c) :: rest =>
      (name,
        { type := if isBinaryFile name then "binary" else "text",
          content := b64encode c }) :: cdLocalView rest

/-- One entry of the differences array. The nested size object of the
source is flattened into sizeOld and sizeNew. -/
structure DiffEntry where
  path : String
  dtype : String
  oldChecksum : Option (List Nat) := none
  newChecksum : Option (List Nat) := none
  sizeOld : Option Nat := none
  sizeNew : Option Nat := none
deriving DecidableEq, Repr

/-- First loop of compareDetailed over the local entries: a missing
remote record yields an added difference, a checksum mismatch yields a
modified difference; counters added and modified are incremented with
each push. The checksum function cs models sha3_256 on the serialized
record and is a parameter of the embedding. -/
def cdLocalLoop (cs : List Nat → List Nat) (remote : List (String × FileRecord)) :
    List (String × LocalRec) → List DiffEntry × Nat × Nat
  | [] => ([], 0, 0)
  | (p, lr) :: rest =>
    let t := cdLocalLoop cs remote rest
    match remote.lookup p with
    | none =>
        ({ path := p, dtype := "added",
           newChecksum := some (cs (serializeLocalRec lr)),
           sizeNew := some (utf8Encode (serializeLocalRec lr)).length } :: t.1,
         t.2.1 + 1, t.2.2)
    | some rr =>
        if cs (serializeLocalRec lr) = cs (serializeFileRecord rr) then t
        else
          ({ path := p, dtype := "modified",
             oldChecksum := some (cs (serializeFileRecord rr)),
             newChecksum := some (cs (serializeLocalRec lr)),
             sizeOld := some (utf8Encode (serializeFileRecord rr)).length,
             sizeNew := some (utf8Encode (serializeLocalRec lr)).length } :: t.1,
           t.2.1, t.2.2 + 1)

/-- Second loop of compareDetailed over the remote entries: every remote
path with no local record yields a deleted difference. -/
def cdDeletedLoop (cs : List Nat → List Nat) (localData : List (String × LocalRec)) :
    List (String × FileRecord) → List DiffEntry × Nat
  | [] => ([], 0)
  | (p, rr) :: rest =>
    let t := cdDeletedLoop cs localData rest
    match localData.lookup p with
    | some _ => t
    | none =>
        ({ path := p, dtype := "deleted",
           oldChecksum := some (cs (serializeFileRecord rr)),
           sizeOld := some (utf8Encode (serializeFileRecord rr)).length } :: t.1,
         t.2 + 1)

/-- Claim-relevant fields of the DetailedComparison result. The version
and timestamp fields built from Date.now and the VersionManager are
outside the claims and are not modelled. -/
structure DetailedComparisonM where
  isEqual : Bool
  differences : List DiffEntry
  added : Nat
  modified : Nat
  deleted : Nat
deriving DecidableEq, Repr

/-- Model of FileBackupAdapter.compareDetailed on a local view and a
fetched remote snapshot: run both loops, concatenate the differences in
push order, and set isEqual from the length of the array. -/
def compareDetailedModel (cs : List Nat → List Nat)
    (localData : List (String × LocalRec))
    (remoteData : List (String × FileRecord)) : DetailedComparisonM :=
  let lm := cdLocalLoop cs remoteData localData
  let del := cdDeletedLoop cs localData remoteData
  { isEqual := (lm.1 ++ del.1).length == 0,
    differences := lm.1 ++ del.1,
    added := lm.2.1,
    modified := lm.2.2,
    deleted := del.2 }

/-! ## Delete (FileBackupAdapter.delete) -/

/-- Outcomes of the storage calls that delete performs, as an oracle. -/
structure StorageOracle where
  isPinnedResult : Except String Bool
  unpinResult : Except String Bool

/-- Observable behaviour of one delete call: the value returned or error
thrown, and whether unpin was invoked. -/
structure DeleteTrace where
  result : Except String Bool
  unpinCalled : Bool
deriving Repr

/-- Model of FileBackupAdapter.delete: check isPinned first and return
false with no unpin when it is false; otherwise unpin and return true.
The surrounding try-catch turns any thrown error, from either call, into
a false return. -/
def deleteModel (st : StorageOracle) : DeleteTrace :=
  match st.isPinnedResult with
  | Except.error _ => { result := Except.ok false, unpinCalled := false }
  | Except.ok false => { result := Except.ok false, unpinCalled := false }
  | Except.ok true =>
    match st.unpinResult with
    | Except.error _ => { result := Except.ok false, unpinCalled := true }
    | Except.ok _ => { result := Except.ok true, unpinCalled := true }

/-! ## Pinata service guards (PinataService.isPinned / unpin) -/

/-- Base58 character class of the CID pattern. -/
def isBase58Char (c : Char) : Bool :=
  let n := c.toNat
  (49 ≤ n ∧ n ≤ 57) ∨ (65 ≤ n ∧ n ≤ 72) ∨ (74 ≤ n ∧ n ≤ 78) ∨
    (80 ≤ n ∧ n ≤ 90) ∨ (97 ≤ n ∧ n ≤ 107) ∨ (109 ≤ n ∧ n ≤ 122)

/-- Alphanumeric character class of the CID pattern. -/
def isAlnumChar (c : Char) : Bool :=
  let n := c.toNat
  (48 ≤ n ∧ n ≤ 57) ∨ (65 ≤ n ∧ n ≤ 90) ∨ (97 ≤ n ∧ n ≤ 122)

/-- Model of CID_PATTERN.test: the string starts with Qm followed by at
least 44 base58 characters, or with b followed by at least 58
alphanumeric characters (the regex is anchored at the start only). -/
def cidTest (hash : String) : Bool :=
  (match hash.toList with
   | 'Q' :: 'm' :: rest => decide (rest.length ≥ 44) && (rest.take 44).all isBase58Char
   | _ => false)
  ||
  (match hash.toList with
   | 'b' :: rest => decide (rest.length ≥ 58) && (rest.take 58).all isAlnumChar
   | _ => false)

/-- Prefix test on character lists. -/
def charsHasPrefix : List Char → List Char → Bool
  | [], _ => true
  | _ :: _, [] => false
  | a :: as, b :: bs => a = b && charsHasPrefix as bs

/-- Infix test on character lists. -/
def charsInfix (sub : List Char) : List Char → Bool
  | [] => charsHasPrefix sub []
  | c :: rest => charsHasPrefix sub (c :: rest) || charsInfix sub rest

/-- Substring check modelling String#includes. -/
def msgIncludes (msg sub : String) : Bool :=
  charsInfix sub.toList msg.toList

/-- Result of one Pinata service call: the value returned or error
thrown, plus whether any network request was issued. -/
structure SvcResult where
  result : Except String Bool
  backendCalled : Bool
deriving Repr

/-- Authentication error message PinataService raises distinctly. -/
def pinataAuthMsg : String := "Authentication error with Pinata: verify your JWT token"

/-- Model of PinataService.isPinned: the CID-format guard returns false
before any request; otherwise the gateway call's outcome is classified:
not-found style messages become false, INVALID_CREDENTIALS becomes the
distinct authentication error, anything else is swallowed as false. -/
def pinataIsPinned (getResult : Except String Bool) (hash : String) : SvcResult :=
  if hash = "" ∨ ¬ cidTest hash then { result := Except.ok false, backendCalled := false }
  else
    match getResult with
    | Except.ok b => { result := Except.ok b, backendCalled := true }
    | Except.error m =>
      if msgIncludes m ("NOT_FOUND") ∨ msgIncludes m ("url does not contain CID") then
        { result := Except.ok false, backendCalled := true }
      else if msgIncludes m ("INVALID_CREDENTIALS") then
        { result := Except.error pinataAuthMsg, backendCalled := true }
      else { result := Except.ok false, backendCalled := true }

/-- Catch clause of PinataService.unpin applied to a thrown message. -/
def unpinCatch (m : String) : Except String Bool :=
  if msgIncludes m ("is not pinned") ∨ msgIncludes m ("NOT_FOUND") ∨
      msgIncludes m ("url does not contain CID") then Except.ok false
  else if msgIncludes m ("INVALID_CREDENTIALS") then Except.error pinataAuthMsg
  else Except.error m

/-- Model of PinataService.unpin: CID-format guard first (false, no
request), then an isPinned probe (false when not pinned), then the SDK
unpin call; anything thrown inside goes through the catch clause. -/
def pinataUnpin (getResult : Except String Bool) (unpinResult : Except String Unit)
    (hash : String) : SvcResult :=
  if hash = "" ∨ ¬ cidTest hash then { result := Except.ok false, backendCalled := false }
  else
    let pinned := pinataIsPinned getResult hash
    match pinned.result with
    | Except.ok false => { result := Except.ok false, backendCalled := pinned.backendCalled }
    | Except.ok true =>
      (match unpinResult with
       | Except.ok _ => { result := Except.ok true, backendCalled := true }
       | Except.error m => { result := unpinCatch m, backendCalled := true })
    | Except.error m => { result := unpinCatch m, backendCalled := pinned.backendCalled }

/-! ## Shared concrete instances for witnesses and counterexamples -/

/-- Concrete cipher used to instantiate witnesses: ciphertext is the
plaintext, the tag is the key, decryption checks the tag. It satisfies
the AEAD contract hypotheses at byte-valued inputs. -/
def cmId : CipherModel :=
  { keyDerive := fun k => k,
    enc := fun k _ m => (m, some k),
    dec := fun k _ ct tag =>
      if tag = some k then Except.ok ct
      else Except.error ("Unsupported state or unable to authenticate data") }

/-- Constant iv oracle for witnesses. -/
def ivConst : String → Bytes := fun _ => [7]

/-- Options with every field at its default. -/
def optsNone : BackupOptions := {}

/-- Options enabling encryption with a given passphrase and algorithm. -/
def encOpts (key : List Nat) (alg : String) : BackupOptions :=
  { encryption := some { enabled := true, key := key, algorithm := alg } }

/-- One-file tree used by concrete evaluations: a.txt containing hello. -/
def treeA : List (String × FsEntry) := [("a.txt", FsEntry.file [104, 101, 108, 108, 111])]

/-- A syntactically valid v0-style CID for witnesses. -/
def qmHash : String := String.mk ('Q' :: 'm' :: List.replicate 44 '1')

/-! ## C3: delete dispatches on isPinned -/

/-- C3: for every storage behaviour, when isPinned resolves false,
delete returns false without invoking unpin; when isPinned resolves
true and unpin resolves, delete invokes unpin and returns true. -/
theorem delete_pinned_dispatch (st : StorageOracle) :
    (st.isPinnedResult = Except.ok false →
      deleteModel st = { result := Except.ok false, unpinCalled := false }) ∧
    (∀ b : Bool, st.isPinnedResult = Except.ok true → st.unpinResult = Except.ok b →
      deleteModel st = { result := Except.ok true, unpinCalled := true }) := by
  constructor
  · intro h; simp [deleteModel, h]
  · intro b h1 h2; simp [deleteModel, h1, h2]

/-- Witness for C3 at two concrete storage behaviours. -/
theorem delete_pinned_dispatch_witness :
    deleteModel { isPinnedResult := Except.ok false, unpinResult := Except.ok true } =
      { result := Except.ok false, unpinCalled := false } ∧
    deleteModel { isPinnedResult := Except.ok true, unpinResult := Except.ok true } =
      { result := Except.ok true, unpinCalled := true } :=
  ⟨(delete_pinned_dispatch _).1 rfl, (delete_pinned_dispatch _).2 true rfl rfl⟩

/-! ## C4: authentication errors -/

/-- C4 counterexample: when the pin-status check during delete throws
the distinct Pinata authentication error, FileBackupAdapter.delete
catches it and returns false instead of re-raising it, contradicting
the claim that an authentication failure is never converted into a
false return. -/
theorem delete_auth_swallowed_cex :
    (deleteModel { isPinnedResult := Except.error pinataAuthMsg,
                   unpinResult := Except.ok true }).result = Except.ok false := rfl

/-- C4 (amended): the authentication carve-out lives in the Pinata
service layer, not in delete: PinataService.isPinned re-raises
INVALID_CREDENTIALS as the distinct authentication error and converts
not-found errors into false; PinataService.unpin re-raises
INVALID_CREDENTIALS from the SDK unpin call the same way; but
FileBackupAdapter.delete converts every thrown error, the
authentication error included, into a false return. -/
theorem auth_error_carveout (hash m : String) (st : StorageOracle)
    (hv : cidTest hash = true) :
    (msgIncludes m ("INVALID_CREDENTIALS") = true →
     msgIncludes m ("NOT_FOUND") = false →
     msgIncludes m ("url does not contain CID") = false →
      pinataIsPinned (Except.error m) hash =
        { result := Except.error pinataAuthMsg, backendCalled := true }) ∧
    (msgIncludes m ("NOT_FOUND") = true →
      pinataIsPinned (Except.error m) hash =
        { result := Except.ok false, backendCalled := true }) ∧
    (msgIncludes m ("INVALID_CREDENTIALS") = true →
     msgIncludes m ("is not pinned") = false →
     msgIncludes m ("NOT_FOUND") = false →
     msgIncludes m ("url does not contain CID") = false →
      pinataUnpin (Except.ok true) (Except.error m) hash =
        { result := Except.error pinataAuthMsg, backendCalled := true }) ∧
    (∀ e, st.isPinnedResult = Except.error e →
      (deleteModel st).result = Except.ok false) := by
  have hguard : ¬ (hash = "" ∨ ¬ cidTest hash) := by
    intro hcase
    rcases hcase with hcase | hcase
    · rw [hcase] at hv; exact absurd hv (by decide)
    · exact hcase (by simp [hv])
  refine ⟨?_, ?_, ?_, ?_⟩
  · intro h1 h2 h3
    unfold pinataIsPinned
    rw [if_neg hguard]
    simp [h1, h2, h3]
  · intro h1
    unfold pinataIsPinned
    rw [if_neg hguard]
    simp [h1]
  · intro h1 h2 h3 h4
    unfold pinataUnpin
    rw [if_neg hguard]
    unfold pinataIsPinned
    rw [if_neg hguard]
    simp [unpinCatch, h1, h2, h3, h4]
  · intro e he
    simp [deleteModel, he]

/-- Witness for C4's amended theorem at a concrete valid CID, the
concrete SDK message INVALID_CREDENTIALS, and a concrete storage
behaviour whose pin check throws. -/
theorem auth_error_carveout_witness :
    pinataIsPinned (Except.error ("INVALID_CREDENTIALS")) qmHash =
      { result := Except.error pinataAuthMsg, backendCalled := true } ∧
    pinataUnpin (Except.ok true) (Except.error ("INVALID_CREDENTIALS")) qmHash =
      { result := Except.error pinataAuthMsg, backendCalled := true } ∧
    (deleteModel { isPinnedResult := Except.error pinataAuthMsg,
                   unpinResult := Except.ok true }).result = Except.ok false := by
  have h := auth_error_carveout qmHash ("INVALID_CREDENTIALS")
    { isPinnedResult := Except.error pinataAuthMsg, unpinResult := Except.ok true }
    (by decide)
  exact ⟨h.1 (by decide) (by decide) (by decide),
    h.2.2.1 (by decide) (by decide) (by decide) (by decide),
    h.2.2.2 pinataAuthMsg rfl⟩

/-! ## C10: invalid CID short-circuit -/

/-- C10: for every hash that is empty or fails the CID pattern, both
PinataService.isPinned and PinataService.unpin return false without
issuing any backend request, whatever the backend would have done. -/
theorem invalid_cid_short_circuit (hash : String) (getResult : Except String Bool)
    (unpinResult : Except String Unit)
    (h : hash = "" ∨ cidTest hash = false) :
    pinataIsPinned getResult hash = { result := Except.ok false, backendCalled := false } ∧
    pinataUnpin getResult unpinResult hash =
      { result := Except.ok false, backendCalled := false } := by
  have hguard : hash = "" ∨ ¬ cidTest hash := by
    rcases h with h | h
    · exact Or.inl h
    · exact Or.inr (by simp [h])
  constructor
  · unfold pinataIsPinned; rw [if_pos hguard]
  · unfold pinataUnpin; rw [if_pos hguard]

/-- Witness for C10 at a concrete malformed hash. -/
theorem invalid_cid_short_circuit_witness :
    pinataIsPinned (Except.ok true) ("zzz") =
      { result := Except.ok false, backendCalled := false } ∧
    pinataUnpin (Except.ok true) (Except.ok ()) ("zzz") =
      { result := Except.ok false, backendCalled := false } :=
  invalid_cid_short_circuit ("zzz") (Except.ok true) (Except.ok ()) (Or.inr (by decide))

/-! ## C6: backup hash comes from the storage id -/

/-- C6: backup fails with the backend error exactly when the storage
call returns no result or a falsy (empty) id, and otherwise the
BackupResult hash equals the id the storage call produced. -/
theorem backup_hash_propagation (cm : CipherModel) (opts : BackupOptions)
    (ivOf : String → Bytes) (sourcePath : String) (tree : List (String × FsEntry))
    (upload : List (String × FileRecord) → Option UploadOutput) :
    (upload (walkEntries cm opts ivOf "" tree) = none →
      backupModel cm opts ivOf sourcePath tree upload =
        Except.error ("Storage service did not return a valid hash")) ∧
    (∀ r, upload (walkEntries cm opts ivOf "" tree) = some r → r.id = "" →
      backupModel cm opts ivOf sourcePath tree upload =
        Except.error ("Storage service did not return a valid hash")) ∧
    (∀ r, upload (walkEntries cm opts ivOf "" tree) = some r → r.id ≠ "" →
      backupModel cm opts ivOf sourcePath tree upload =
        Except.ok { hash := r.id, name := pathBasename sourcePath }) := by
  refine ⟨?_, ?_, ?_⟩
  · intro h; simp [backupModel, backupFinalize, h]
  · intro r h hid; simp [backupModel, backupFinalize, h, hid]
  · intro r h hid; simp [backupModel, backupFinalize, h, hid]

/-- Witness for C6: a storage call answering a nonempty id gives that id
as the hash, and a missing result gives the backend error. -/
theorem backup_hash_propagation_witness :
    backupModel cmId optsNone ivConst ("dir/data") treeA (fun _ => some { id := "QmX" }) =
      Except.ok { hash := "QmX", name := "data" } ∧
    backupModel cmId optsNone ivConst ("dir/data") treeA (fun _ => none) =
      Except.error ("Storage service did not return a valid hash") := by
  constructor
  · have h := (backup_hash_propagation cmId optsNone ivConst ("dir/data") treeA
      (fun _ => some { id := "QmX" })).2.2 { id := "QmX" } rfl (by decide)
    simpa using h
  · exact (backup_hash_propagation cmId optsNone ivConst ("dir/data") treeA
      (fun _ => none)).1 rfl

/-! ## C7: size-tier dispatch and path equivalence -/

/-- Helper: the streaming read path and the single-shot read path build
the same FileRecord for the same file content (the stream chunks
concatenate back to the content; the encrypted branch loads the full
content in both). -/
theorem processLarge_eq_processSmall (cm : CipherModel) (opts : BackupOptions)
    (ivOf : String → Bytes) (relativePath name : String) (content : Bytes) :
    processLargeFileRec cm opts ivOf relativePath name content =
      processSmallFileRec cm opts ivOf relativePath name content := by
  unfold processLargeFileRec processSmallFileRec plainRecord
  cases opts.encryption with
  | none => simp [chunkBytes_flatten]
  | some e => simp [chunkBytes_flatten]

/-- C7 counterexample: a file of exactly 1 MiB (1048576 bytes) is NOT
dispatched to the streaming read path, because the walk tests
stats.size strictly greater than the threshold; the claim says files at
or above the threshold stream. -/
theorem size_threshold_boundary_cex : usesStreamingRead (1024 * 1024) = false := by decide

/-- C7 (amended): files strictly above the fixed 1 MiB threshold go to
the streaming read path and files at or below it to the single-shot
path; and for the same file content both paths produce identical
FileRecords. -/
theorem size_dispatch_and_equivalence :
    (∀ size : Nat, usesStreamingRead size = decide (1024 * 1024 < size)) ∧
    (∀ (cm : CipherModel) (opts : BackupOptions) (ivOf : String → Bytes)
      (relativePath name : String) (content : Bytes),
      processLargeFileRec cm opts ivOf relativePath name content =
        processSmallFileRec cm opts ivOf relativePath name content) :=
  ⟨fun _ => rfl, processLarge_eq_processSmall⟩

/-! ## C5: structural invariants of compareDetailed -/

/-- Association-list fact: a failed lookup means the key is absent. -/
theorem lookup_none_not_mem {β : Type _} : ∀ (l : List (String × β)) (k : String),
    l.lookup k = none → k ∉ l.map Prod.fst := by
  intro l k h hmem
  induction l with
  | nil => simp at hmem
  | cons a rest ih =>
      obtain ⟨k2, v⟩ := a
      simp only [List.lookup] at h
      cases hbeq : k == k2 with
      | true => rw [hbeq] at h; exact Option.noConfusion h
      | false =>
          rw [hbeq] at h
          have hk : k ≠ k2 := by
            intro he; rw [he] at hbeq; simp at hbeq
          rcases List.mem_cons.mp hmem with hh | hh
          · exact hk (by simpa using hh)
          · exact ih h hh

/-- Paths pushed by the first compareDetailed loop form a sublist of the
local keys (at most one difference per local entry, in order). -/
theorem cdLocalLoop_paths_sublist (cs : List Nat → List Nat)
    (remote : List (String × FileRecord)) :
    ∀ l : List (String × LocalRec),
      ((cdLocalLoop cs remote l).1.map DiffEntry.path).Sublist (l.map Prod.fst) := by
  intro l
  induction l with
  | nil => simp [cdLocalLoop]
  | cons a rest ih =>
      obtain ⟨p, lr⟩ := a
      cases h : remote.lookup p with
      | none =>
          simp only [cdLocalLoop, h]
          simpa using List.Sublist.cons₂ p ih
      | some rr =>
          simp only [cdLocalLoop, h]
          by_cases he : cs (serializeLocalRec lr) = cs (serializeFileRecord rr)
          · rw [if_pos he]
            simpa using List.Sublist.cons p ih
          · rw [if_neg he]
            simpa using List.Sublist.cons₂ p ih

/-- Every difference pushed by the first loop is added or modified, and
the two counters equal the number of pushes of each kind. -/
theorem cdLocalLoop_kinds_counts (cs : List Nat → List Nat)
    (remote : List (String × FileRecord)) :
    ∀ l : List (String × LocalRec),
      (∀ d ∈ (cdLocalLoop cs remote l).1, d.dtype = "added" ∨ d.dtype = "modified") ∧
      (cdLocalLoop cs remote l).2.1 =
        (cdLocalLoop cs remote l).1.countP (fun d => decide (d.dtype = "added")) ∧
      (cdLocalLoop cs remote l).2.2 =
        (cdLocalLoop cs remote l).1.countP (fun d => decide (d.dtype = "modified")) := by
  intro l
  induction l with
  | nil => simp [cdLocalLoop]
  | cons a rest ih =>
      obtain ⟨p, lr⟩ := a
      obtain ⟨ihk, iha, ihm⟩ := ih
      cases h : remote.lookup p with
      | none =>
          simp only [cdLocalLoop, h]
          refine ⟨?_, ?_, ?_⟩
          · intro d hd
            rcases List.mem_cons.mp hd with hd | hd
            · left; rw [hd]
            · exact ihk d hd
          · simp [List.countP_cons, iha]
          · simp [List.countP_cons, ihm]
      | some rr =>
          simp only [cdLocalLoop, h]
          by_cases he : cs (serializeLocalRec lr) = cs (serializeFileRecord rr)
          · rw [if_pos he]; exact ⟨ihk, iha, ihm⟩
          · rw [if_neg he]
            refine ⟨?_, ?_, ?_⟩
            · intro d hd
              rcases List.mem_cons.mp hd with hd | hd
              · right; rw [hd]
              · exact ihk d hd
            · simp [List.countP_cons, iha]
            · simp [List.countP_cons, ihm]

/-- Paths pushed by the deleted loop form a sublist of the remote keys;
every pushed difference is a deleted one whose path has no local
record; and the deleted counter equals the number of pushes. -/
theorem cdDeletedLoop_facts (cs : List Nat → List Nat)
    (localData : List (String × LocalRec)) :
    ∀ r : List (String × FileRecord),
      ((cdDeletedLoop cs localData r).1.map DiffEntry.path).Sublist (r.map Prod.fst) ∧
      (∀ d ∈ (cdDeletedLoop cs localData r).1,
        d.dtype = "deleted" ∧ localData.lookup d.path = none) ∧
      (cdDeletedLoop cs localData r).2 =
        (cdDeletedLoop cs localData r).1.countP (fun d => decide (d.dtype = "deleted")) := by
  intro r
  induction r with
  | nil => simp [cdDeletedLoop]
  | cons a rest ih =>
      obtain ⟨p, rr⟩ := a
      obtain ⟨ihs, ihk, ihc⟩ := ih
      cases h : localData.lookup p with
      | some lr =>
          simp only [cdDeletedLoop, h]
          exact ⟨List.Sublist.cons p ihs, ihk, ihc⟩
      | none =>
          simp only [cdDeletedLoop, h]
          refine ⟨by simpa using List.Sublist.cons₂ p ihs, ?_, ?_⟩
          · intro d hd
            rcases List.mem_cons.mp hd with hd | hd
            · rw [hd]; exact ⟨rfl, h⟩
            · exact ihk d hd
          · simp [List.countP_cons, ihc]

/-- C5: in every DetailedComparison the model produces from key-unique
local and remote snapshots, each path appears in differences at most
once (hence with exactly one kind), the three tallies equal the number
of differences of their kind, and isEqual holds exactly when the
differences array is empty. -/
theorem compareDetailed_invariants (cs : List Nat → List Nat)
    (localData : List (String × LocalRec)) (remoteData : List (String × FileRecord))
    (hl : (localData.map Prod.fst).Nodup) (hr : (remoteData.map Prod.fst).Nodup) :
    ((compareDetailedModel cs localData remoteData).differences.map DiffEntry.path).Nodup ∧
    (compareDetailedModel cs localData remoteData).added =
      (compareDetailedModel cs localData remoteData).differences.countP
        (fun d => decide (d.dtype = "added")) ∧
    (compareDetailedModel cs localData remoteData).modified =
      (compareDetailedModel cs localData remoteData).differences.countP
        (fun d => decide (d.dtype = "modified")) ∧
    (compareDetailedModel cs localData remoteData).deleted =
      (compareDetailedModel cs localData remoteData).differences.countP
        (fun d => decide (d.dtype = "deleted")) ∧
    ((compareDetailedModel cs localData remoteData).isEqual = true ↔
      (compareDetailedModel cs localData remoteData).differences = []) := by
  obtain ⟨hk1, ha1, hm1⟩ := cdLocalLoop_kinds_counts cs remoteData localData
  obtain ⟨hs2, hk2, hc2⟩ := cdDeletedLoop_facts cs localData remoteData
  have hs1 := cdLocalLoop_paths_sublist cs remoteData localData
  have hzero1 : (cdLocalLoop cs remoteData localData).1.countP
      (fun d => decide (d.dtype = "deleted")) = 0 := by
    rw [List.countP_eq_zero]
    intro d hd
    rcases hk1 d hd with h | h <;> simp [h]
  have hzero2a : (cdDeletedLoop cs localData remoteData).1.countP
      (fun d => decide (d.dtype = "added")) = 0 := by
    rw [List.countP_eq_zero]
    intro d hd
    simp [(hk2 d hd).1]
  have hzero2m : (cdDeletedLoop cs localData remoteData).1.countP
      (fun d => decide (d.dtype = "modified")) = 0 := by
    rw [List.countP_eq_zero]
    intro d hd
    simp [(hk2 d hd).1]
  refine ⟨?_, ?_, ?_, ?_, ?_⟩
  · show ((cdLocalLoop cs remoteData localData).1 ++
      (cdDeletedLoop cs localData remoteData).1).map DiffEntry.path |>.Nodup
    rw [List.map_append, List.nodup_append]
    refine ⟨hs1.nodup hl, hs2.nodup hr, ?_⟩
    intro p hp1 hp2
    have hmem : p ∈ localData.map Prod.fst := hs1.subset hp1
    obtain ⟨d, hd, hdp⟩ := List.mem_map.mp hp2
    have := (hk2 d hd).2
    rw [hdp] at this
    exact lookup_none_not_mem localData p this hmem
  · show (cdLocalLoop cs remoteData localData).2.1 =
      List.countP (fun d => decide (d.dtype = "added"))
        ((cdLocalLoop cs remoteData localData).1 ++ (cdDeletedLoop cs localData remoteData).1)
    rw [List.countP_append, hzero2a, ha1]
    simp
  · show (cdLocalLoop cs remoteData localData).2.2 =
      List.countP (fun d => decide (d.dtype = "modified"))
        ((cdLocalLoop cs remoteData localData).1 ++ (cdDeletedLoop cs localData remoteData).1)
    rw [List.countP_append, hzero2m, hm1]
    simp
  · show (cdDeletedLoop cs localData remoteData).2 =
      List.countP (fun d => decide (d.dtype = "deleted"))
        ((cdLocalLoop cs remoteData localData).1 ++ (cdDeletedLoop cs localData remoteData).1)
    rw [List.countP_append, hzero1, hc2]
    simp
  · show (((cdLocalLoop cs remoteData localData).1 ++
      (cdDeletedLoop cs localData remoteData).1).length == 0) = true ↔
      (cdLocalLoop cs remoteData localData).1 ++ (cdDeletedLoop cs localData remoteData).1 = []
    simp [List.length_eq_zero]

/-- Witness for C5 at concrete snapshots: one local file with no remote
record gives one added difference with matching tallies. -/
theorem compareDetailed_invariants_witness :
    (((compareDetailedModel (fun s => s)
        [("a.txt", { type := "text", content := [104] })] []).differences.map
          DiffEntry.path).Nodup ∧
      (compareDetailedModel (fun s => s)
        [("a.txt", { type := "text", content := [104] })] []).added =
        (compareDetailedModel (fun s => s)
          [("a.txt", { type := "text", content := [104] })] []).differences.countP
            (fun d => decide (d.dtype = "added")) ∧
      (compareDetailedModel (fun s => s)
        [("a.txt", { type := "text", content := [104] })] []).modified =
        (compareDetailedModel (fun s => s)
          [("a.txt", { type := "text", content := [104] })] []).differences.countP
            (fun d => decide (d.dtype = "modified")) ∧
      (compareDetailedModel (fun s => s)
        [("a.txt", { type := "text", content := [104] })] []).deleted =
        (compareDetailedModel (fun s => s)
          [("a.txt", { type := "text", content := [104] })] []).differences.countP
            (fun d => decide (d.dtype = "deleted")) ∧
      ((compareDetailedModel (fun s => s)
        [("a.txt", { type := "text", content := [104] })] []).isEqual = true ↔
        (compareDetailedModel (fun s => s)
          [("a.txt", { type := "text", content := [104] })] []).differences = [])) :=
  compareDetailed_invariants (fun s => s)
    [("a.txt", { type := "text", content := [104] })] [] (by simp) (by simp)

/-! ## C9: restore never returns false -/

/-- Helper: when the restore loop finishes with no error it has written
one file for every record of the snapshot, at the same paths and in the
same order. -/
theorem restoreFiles_complete (cm : CipherModel) (k : Option Bytes) :
    ∀ data : List (String × FileRecord), (restoreFiles cm k data).2 = none →
      (restoreFiles cm k data).1.map Prod.fst = data.map Prod.fst := by
  intro data
  induction data with
  | nil => intro _; rfl
  | cons a rest ih =>
      obtain ⟨name, r⟩ := a
      intro h
      cases hw : writeOne cm k r with
      | error e => simp [restoreFiles, hw] at h
      | ok bytes =>
          simp only [restoreFiles, hw] at h ⊢
          simp [ih h]

/-- C9: restore never resolves false: on every input it either throws
(a missing data field or the first per-file failure aborts the call) or
returns the literal true, and in the success case it has processed and
written every FileRecord of the fetched snapshot. -/
theorem restore_never_false (cm : CipherModel) (opts : BackupOptions)
    (payload : Option (List (String × FileRecord))) :
    (∃ e, restoreModel cm opts payload = Except.error e) ∨
    (restoreModel cm opts payload = Except.ok true ∧
      ∃ data, payload = some data ∧
        (restoreFiles cm (mkEncCtx cm opts) data).1.map Prod.fst = data.map Prod.fst) := by
  cases payload with
  | none => exact Or.inl ⟨_, rfl⟩
  | some data =>
      cases h : (restoreFiles cm (mkEncCtx cm opts) data).2 with
      | some e => exact Or.inl ⟨e, by simp [restoreModel, h]⟩
      | none =>
          exact Or.inr ⟨by simp [restoreModel, h], data, rfl,
            restoreFiles_complete cm _ data h⟩

/-! ## Walk and round-trip machinery for C2 and C8 -/

/-- Helper: with no name excluded and no file size-skipped, the walk
emits exactly one record per file of the tree, in walk order, each the
record the single-shot constructor builds (the streaming constructor
builds the same record). -/
theorem walkEntries_eq_map (cm : CipherModel) (opts : BackupOptions) (ivOf : String → Bytes) :
    ∀ (base : String) (T : List (String × FsEntry)),
      (∀ n ∈ allEntryNames T, isExcluded opts n = false) →
      (∀ x ∈ treeFilesAll base T, sizeSkipped opts x.2.2.length = false) →
      walkEntries cm opts ivOf base T =
        (treeFilesAll base T).map
          (fun x => (x.1, processSmallFileRec cm opts ivOf x.1 x.2.1 x.2.2)) := by
  intro base T
  induction base, T using walkEntries.induct cm opts ivOf with
  | case1 base =>
      intro _ _
      simp [walkEntries, treeFilesAll]
  | case2 base name e rest h ih =>
      intro h1 _
      have hfalse : isExcluded opts name = false := by
        apply h1
        cases e <;> simp [allEntryNames]
      rw [h] at hfalse
      exact absurd hfalse (by simp)
  | case3 base name rest h es ih1 ih2 =>
      intro h1 h2
      have hx1 : ∀ n ∈ allEntryNames es, isExcluded opts n = false := by
        intro n hn; apply h1; simp [allEntryNames, hn]
      have hx2 : ∀ n ∈ allEntryNames rest, isExcluded opts n = false := by
        intro n hn; apply h1; simp [allEntryNames, hn]
      have hz1 : ∀ x ∈ treeFilesAll (joinRel base name) es,
          sizeSkipped opts x.2.2.length = false := by
        intro x hxmem; apply h2; simp [treeFilesAll, hxmem]
      have hz2 : ∀ x ∈ treeFilesAll base rest,
          sizeSkipped opts x.2.2.length = false := by
        intro x hxmem; apply h2; simp [treeFilesAll, hxmem]
      simp only [walkEntries, treeFilesAll, h]
      rw [List.map_append, ih1 hx1 hz1, ih2 hx2 hz2]
      simp
  | case4 base name rest h c hsz ih =>
      intro _ h2
      have hfalse : sizeSkipped opts c.length = false := by
        have := h2 (joinRel base name, name, c) (by simp [treeFilesAll])
        exact this
      rw [hsz] at hfalse
      exact absurd hfalse (by simp)
  | case5 base name rest h c hsz ih =>
      intro h1 h2
      have hx2 : ∀ n ∈ allEntryNames rest, isExcluded opts n = false := by
        intro n hn; apply h1; simp [allEntryNames, hn]
      have hz2 : ∀ x ∈ treeFilesAll base rest,
          sizeSkipped opts x.2.2.length = false := by
        intro x hxmem; apply h2; simp [treeFilesAll, hxmem]
      simp only [walkEntries, treeFilesAll, h, hsz]
      rw [ih hx2 hz2, List.map_cons,
        processLarge_eq_processSmall cm opts ivOf (joinRel base name) name c, ite_self]
      simp

/-- Helper: a nonempty plaintext record of a byte-valued file restores
to the original bytes, provided a text-classified content re-encodes to
itself under the utf8 round trip. -/
theorem writeOne_plain_ok (cm : CipherModel) (name : String) (c : Bytes)
    (hne : c ≠ []) (hb : ∀ b ∈ c, b < 256)
    (htext : isBinaryFile name = false → utf8Encode (utf8Decode c) = c) :
    writeOne cm none (plainRecord name c) = Except.ok c := by
  by_cases hbin : isBinaryFile name
  · simp only [plainRecord, hbin, if_true]
    simp only [writeOne]
    simp [b64encode_ne_nil c hne, b64decode_b64encode c hb]
  · have hroundtrip := htext (by simp [hbin])
    have hd : utf8Decode c ≠ [] := by
      intro h0
      rw [h0] at hroundtrip
      exact hne (by simpa [utf8Encode] using hroundtrip.symm)
    simp only [plainRecord, hbin, if_false]
    simp only [writeOne]
    simp [hd, hroundtrip]

/-- Helper: the restore loop succeeds on a snapshot whose every record
restores its file, writing exactly the original files in order. -/
theorem restoreFiles_map_ok (cm : CipherModel) (k : Option Bytes)
    (f : String × String × Bytes → FileRecord) :
    ∀ L : List (String × String × Bytes),
      (∀ x ∈ L, writeOne cm k (f x) = Except.ok x.2.2) →
      restoreFiles cm k (L.map (fun x => (x.1, f x))) =
        (L.map (fun x => (x.1, x.2.2)), none) := by
  intro L
  induction L with
  | nil => intro _; rfl
  | cons a rest ih =>
      intro hall
      have ha := hall a (by simp)
      simp only [List.map_cons, restoreFiles, ha]
      rw [ih (fun x hx => hall x (by simp [hx]))]

/-- C2 (amended): for a tree with no excluded names, no size-skipped
files, encryption disabled, every file nonempty and byte-valued, and
every text-classified file's bytes invariant under the utf8
decode/encode round trip, restoring the snapshot that backup built
succeeds and reproduces the original bytes at every relative path of
the tree. -/
theorem backup_restore_roundtrip (cm : CipherModel) (opts : BackupOptions)
    (ivOf : String → Bytes) (T : List (String × FsEntry))
    (hEnc : ∀ e, opts.encryption = some e → (e.enabled && decide (e.key ≠ [])) = false)
    (hexcl : ∀ n ∈ allEntryNames T, isExcluded opts n = false)
    (hsize : ∀ x ∈ treeFilesAll "" T, sizeSkipped opts x.2.2.length = false)
    (hfiles : ∀ x ∈ treeFilesAll "" T, x.2.2 ≠ [] ∧ (∀ b ∈ x.2.2, b < 256) ∧
      (isBinaryFile x.2.1 = false → utf8Encode (utf8Decode x.2.2) = x.2.2)) :
    restoreModel cm opts (some (walkEntries cm opts ivOf "" T)) = Except.ok true ∧
    restoreWritten cm opts (walkEntries cm opts ivOf "" T) =
      (treeFilesAll "" T).map (fun x => (x.1, x.2.2)) := by
  have hwalk := walkEntries_eq_map cm opts ivOf "" T hexcl hsize
  have hsmall : (treeFilesAll "" T).map
      (fun x => (x.1, processSmallFileRec cm opts ivOf x.1 x.2.1 x.2.2)) =
      (treeFilesAll "" T).map (fun x => (x.1, plainRecord x.2.1 x.2.2)) := by
    apply List.map_congr_left
    intro x hx
    unfold processSmallFileRec
    cases he : opts.encryption with
    | none => rfl
    | some e =>
        have hf := hEnc e he
        have hkey : e.enabled = true → e.key = [] := by
          intro h1
          rw [h1] at hf
          simpa using hf
        cases henb : e.enabled with
        | false => simp [henb]
        | true => simp [henb, hkey henb]
  have hctx : mkEncCtx cm opts = none := by
    unfold mkEncCtx
    cases he : opts.encryption with
    | none => rfl
    | some e =>
        have hf := hEnc e he
        have hkey : e.enabled = true → e.key = [] := by
          intro h1
          rw [h1] at hf
          simpa using hf
        cases henb : e.enabled with
        | false => simp [henb]
        | true => simp [henb, hkey henb]
  have hrun : restoreFiles cm none
      ((treeFilesAll "" T).map (fun x => (x.1, plainRecord x.2.1 x.2.2))) =
      ((treeFilesAll "" T).map (fun x => (x.1, x.2.2)), none) :=
    restoreFiles_map_ok cm none (fun x => plainRecord x.2.1 x.2.2) (treeFilesAll "" T)
      (fun x hx => writeOne_plain_ok cm x.2.1 x.2.2 (hfiles x hx).1
        (hfiles x hx).2.1 (hfiles x hx).2.2)
  constructor
  · simp only [restoreModel, hwalk, hsmall, hctx, hrun]
  · simp only [restoreWritten, hwalk, hsmall, hctx, hrun]

/-- Witness for C2 at a concrete one-file tree holding the ASCII bytes
of hello. -/
theorem backup_restore_roundtrip_witness :
    restoreModel cmId optsNone (some (walkEntries cmId optsNone ivConst "" treeA)) =
      Except.ok true ∧
    restoreWritten cmId optsNone (walkEntries cmId optsNone ivConst "" treeA) =
      (treeFilesAll "" treeA).map (fun x => (x.1, x.2.2)) :=
  backup_restore_roundtrip cmId optsNone ivConst treeA
    (fun e he => by simp [optsNone] at he)
    (by intro n hn; rfl)
    (by intro x hx; rfl)
    (by
      intro x hx
      simp only [treeA, treeFilesAll, joinRel] at hx
      simp at hx
      rw [hx]
      refine ⟨by simp, by decide, by decide⟩)

/-- C2 counterexample: the tree with the single text-classified file
a.txt whose content is the lone byte 255 back-ups and restores without
error, but the restored bytes are the utf8 encoding of the replacement
character, not the original byte, so the round trip is not
byte-identical as the claim states. -/
theorem restore_not_byte_identical_cex :
    restoreWritten cmId optsNone (walkEntries cmId optsNone ivConst ""
        [("a.txt", FsEntry.file [255])]) = [("a.txt", [239, 191, 189])] ∧
    ([239, 191, 189] : Bytes) ≠ [255] := by
  constructor
  · have ht : treeFilesAll "" [("a.txt", FsEntry.file [255])] =
        [("a.txt", "a.txt", [255])] := by
      simp [treeFilesAll, joinRel]
    have hw := walkEntries_eq_map cmId optsNone ivConst ""
      [("a.txt", FsEntry.file [255])] (by intro n hn; rfl) (by intro x hx; rfl)
    rw [ht] at hw
    rw [hw]
    rfl
  · decide

/-! ## C8: encrypted round trip and wrong-key failure -/

/-- Helper: an encrypted record decrypts back to the original content
when restore presents the same derived key, provided the cipher
round-trips at this input and all stored fields are nonempty and
byte-valued. -/
theorem writeOne_encrypted_ok (cm : CipherModel) (e : EncryptionSettings) (iv : Bytes)
    (name : String) (c : Bytes)
    (hivne : iv ≠ []) (hivb : ∀ b ∈ iv, b < 256)
    (hctne : (cm.enc (cm.keyDerive e.key) iv c).1 ≠ [])
    (hctb : ∀ b ∈ (cm.enc (cm.keyDerive e.key) iv c).1, b < 256)
    (htagb : ∀ t, (cm.enc (cm.keyDerive e.key) iv c).2 = some t → ∀ b ∈ t, b < 256)
    (hdec : cm.dec (cm.keyDerive e.key) iv (cm.enc (cm.keyDerive e.key) iv c).1
      (cm.enc (cm.keyDerive e.key) iv c).2 = Except.ok c) :
    writeOne cm (some (cm.keyDerive e.key)) (mkEncryptedRecord cm e iv name c) =
      Except.ok c := by
  rcases henc : cm.enc (cm.keyDerive e.key) iv c with ⟨ct, tag⟩
  rw [henc] at hctne hctb htagb hdec
  simp only at hctne hctb htagb hdec
  have hrec : mkEncryptedRecord cm e iv name c =
      FileRecord.encrypted (b64encode ct) (b64encode iv) (Option.map b64encode tag)
        (getMimeType name) := by
    simp [mkEncryptedRecord, henc]
  rw [hrec]
  simp only [writeOne]
  rw [if_pos ⟨b64encode_ne_nil ct hctne, b64encode_ne_nil iv hivne⟩]
  cases tag with
  | none =>
      simp only [Option.map]
      rw [b64decode_b64encode ct hctb, b64decode_b64encode iv hivb]
      exact hdec
  | some t =>
      simp only [Option.map]
      rw [b64decode_b64encode ct hctb, b64decode_b64encode iv hivb,
        b64decode_b64encode t (htagb t rfl)]
      exact hdec

/-- Helper: an encrypted record fails to restore when the presented key
makes the cipher reject this ciphertext. -/
theorem writeOne_encrypted_err (cm : CipherModel) (e : EncryptionSettings) (iv : Bytes)
    (name : String) (c : Bytes) (kd2 : Bytes)
    (hivne : iv ≠ []) (hivb : ∀ b ∈ iv, b < 256)
    (hctne : (cm.enc (cm.keyDerive e.key) iv c).1 ≠ [])
    (hctb : ∀ b ∈ (cm.enc (cm.keyDerive e.key) iv c).1, b < 256)
    (htagb : ∀ t, (cm.enc (cm.keyDerive e.key) iv c).2 = some t → ∀ b ∈ t, b < 256)
    (hdec : ∃ err, cm.dec kd2 iv (cm.enc (cm.keyDerive e.key) iv c).1
      (cm.enc (cm.keyDerive e.key) iv c).2 = Except.error err) :
    ∃ err, writeOne cm (some kd2) (mkEncryptedRecord cm e iv name c) =
      Except.error err := by
  rcases henc : cm.enc (cm.keyDerive e.key) iv c with ⟨ct, tag⟩
  rw [henc] at hctne hctb htagb hdec
  simp only at hctne hctb htagb hdec
  obtain ⟨err, hdec⟩ := hdec
  refine ⟨err, ?_⟩
  have hrec : mkEncryptedRecord cm e iv name c =
      FileRecord.encrypted (b64encode ct) (b64encode iv) (Option.map b64encode tag)
        (getMimeType name) := by
    simp [mkEncryptedRecord, henc]
  rw [hrec]
  simp only [writeOne]
  rw [if_pos ⟨b64encode_ne_nil ct hctne, b64encode_ne_nil iv hivne⟩]
  cases tag with
  | none =>
      simp only [Option.map]
      rw [b64decode_b64encode ct hctb, b64decode_b64encode iv hivb]
      exact hdec
  | some t =>
      simp only [Option.map]
      rw [b64decode_b64encode ct hctb, b64decode_b64encode iv hivb,
        b64decode_b64encode t (htagb t rfl)]
      exact hdec

/-- Helper: the restore loop stops at a failing first record, writing
nothing. -/
theorem restoreFiles_first_err (cm : CipherModel) (k : Option Bytes)
    (name : String) (r : FileRecord) (rest : List (String × FileRecord)) (e : String)
    (h : writeOne cm k r = Except.error e) :
    restoreFiles cm k ((name, r) :: rest) =
      ([], some ("Failed to restore file " ++ name ++ (": ") ++ e)) := by
  simp [restoreFiles, h]

/-- C8: for every backup made with encryption enabled under passphrase
k1 and a cipher satisfying the AEAD contract at the derived keys (the
wrong-key hypothesis instantiates tag rejection for the key derived
from a different passphrase k2), restoring with k1 succeeds and
reproduces every original plaintext, while restoring the same snapshot
with k2 fails with the decryption (integrity) error on its first file
and writes no plaintext at all, in particular none for the affected
file. -/
theorem encrypted_backup_restore (cm : CipherModel) (ivOf : String → Bytes)
    (T : List (String × FsEntry)) (k1 k2 : List Nat) (alg : String)
    (hk1 : k1 ≠ []) (hk2 : k2 ≠ [])
    (hcorrect : ∀ iv m, cm.dec (cm.keyDerive k1) iv
      (cm.enc (cm.keyDerive k1) iv m).1 (cm.enc (cm.keyDerive k1) iv m).2 = Except.ok m)
    (hauth : ∀ iv m, ∃ err, cm.dec (cm.keyDerive k2) iv
      (cm.enc (cm.keyDerive k1) iv m).1 (cm.enc (cm.keyDerive k1) iv m).2 =
        Except.error err)
    (hencb : ∀ iv m, (∀ b ∈ m, b < 256) →
      (∀ b ∈ (cm.enc (cm.keyDerive k1) iv m).1, b < 256) ∧
      (∀ t, (cm.enc (cm.keyDerive k1) iv m).2 = some t → ∀ b ∈ t, b < 256))
    (hencne : ∀ iv m, m ≠ [] → (cm.enc (cm.keyDerive k1) iv m).1 ≠ [])
    (hiv : ∀ p, ivOf p ≠ [] ∧ ∀ b ∈ ivOf p, b < 256)
    (hexcl : ∀ n ∈ allEntryNames T, isExcluded (encOpts k1 alg) n = false)
    (hsize : ∀ x ∈ treeFilesAll "" T, sizeSkipped (encOpts k1 alg) x.2.2.length = false)
    (hfiles : ∀ x ∈ treeFilesAll "" T, x.2.2 ≠ [] ∧ (∀ b ∈ x.2.2, b < 256)) :
    (restoreModel cm (encOpts k1 alg)
        (some (walkEntries cm (encOpts k1 alg) ivOf "" T)) = Except.ok true ∧
      restoreWritten cm (encOpts k1 alg) (walkEntries cm (encOpts k1 alg) ivOf "" T) =
        (treeFilesAll "" T).map (fun x => (x.1, x.2.2))) ∧
    (treeFilesAll "" T ≠ [] →
      (∃ e, restoreModel cm (encOpts k2 alg)
        (some (walkEntries cm (encOpts k1 alg) ivOf "" T)) = Except.error e) ∧
      restoreWritten cm (encOpts k2 alg)
        (walkEntries cm (encOpts k1 alg) ivOf "" T) = []) := by
  have hwalk := walkEntries_eq_map cm (encOpts k1 alg) ivOf "" T hexcl hsize
  have hset : (encOpts k1 alg).encryption = some { enabled := true, key := k1, algorithm := alg } := rfl
  have hsmallenc : (treeFilesAll "" T).map
      (fun x => (x.1, processSmallFileRec cm (encOpts k1 alg) ivOf x.1 x.2.1 x.2.2)) =
      (treeFilesAll "" T).map (fun x => (x.1,
        mkEncryptedRecord cm { enabled := true, key := k1, algorithm := alg }
          (ivOf x.1) x.2.1 x.2.2)) := by
    apply List.map_congr_left
    intro x hx
    simp [processSmallFileRec, encOpts, hk1]
  rw [hwalk, hsmallenc]
  have hctx1 : mkEncCtx cm (encOpts k1 alg) = some (cm.keyDerive k1) := by
    simp [mkEncCtx, encOpts, hk1]
  have hctx2 : mkEncCtx cm (encOpts k2 alg) = some (cm.keyDerive k2) := by
    simp [mkEncCtx, encOpts, hk2]
  have hok : ∀ x ∈ treeFilesAll "" T,
      writeOne cm (some (cm.keyDerive k1))
        (mkEncryptedRecord cm { enabled := true, key := k1, algorithm := alg }
          (ivOf x.1) x.2.1 x.2.2) = Except.ok x.2.2 := by
    intro x hx
    exact writeOne_encrypted_ok cm _ (ivOf x.1) x.2.1 x.2.2
      (hiv x.1).1 (hiv x.1).2
      (hencne (ivOf x.1) x.2.2 (hfiles x hx).1)
      ((hencb (ivOf x.1) x.2.2 (hfiles x hx).2).1)
      ((hencb (ivOf x.1) x.2.2 (hfiles x hx).2).2)
      (hcorrect (ivOf x.1) x.2.2)
  have hrun : restoreFiles cm (some (cm.keyDerive k1))
      ((treeFilesAll "" T).map (fun x => (x.1,
        mkEncryptedRecord cm { enabled := true, key := k1, algorithm := alg }
          (ivOf x.1) x.2.1 x.2.2))) =
      ((treeFilesAll "" T).map (fun x => (x.1, x.2.2)), none) :=
    restoreFiles_map_ok cm (some (cm.keyDerive k1))
      (fun x => mkEncryptedRecord cm { enabled := true, key := k1, algorithm := alg }
        (ivOf x.1) x.2.1 x.2.2) (treeFilesAll "" T) hok
  constructor
  · constructor
    · simp only [restoreModel, hctx1, hrun]
    · simp only [restoreWritten, hctx1, hrun]
  · intro hne
    obtain ⟨x0, L, hL⟩ := List.exists_cons_of_ne_nil hne
    have hx0 : x0 ∈ treeFilesAll "" T := by rw [hL]; simp
    have herr : ∃ err, writeOne cm (some (cm.keyDerive k2))
        (mkEncryptedRecord cm { enabled := true, key := k1, algorithm := alg }
          (ivOf x0.1) x0.2.1 x0.2.2) = Except.error err :=
      writeOne_encrypted_err cm _ (ivOf x0.1) x0.2.1 x0.2.2 (cm.keyDerive k2)
        (hiv x0.1).1 (hiv x0.1).2
        (hencne (ivOf x0.1) x0.2.2 (hfiles x0 hx0).1)
        ((hencb (ivOf x0.1) x0.2.2 (hfiles x0 hx0).2).1)
        ((hencb (ivOf x0.1) x0.2.2 (hfiles x0 hx0).2).2)
        (hauth (ivOf x0.1) x0.2.2)
    obtain ⟨err, herr⟩ := herr
    have hfail := restoreFiles_first_err cm (some (cm.keyDerive k2)) x0.1
      (mkEncryptedRecord cm { enabled := true, key := k1, algorithm := alg }
        (ivOf x0.1) x0.2.1 x0.2.2)
      (L.map (fun x => (x.1,
        mkEncryptedRecord cm { enabled := true, key := k1, algorithm := alg }
          (ivOf x.1) x.2.1 x.2.2))) err herr
    constructor
    · refine ⟨"Failed to restore file " ++ x0.1 ++ (": ") ++ err, ?_⟩
      simp only [restoreModel, hctx2, hL, List.map_cons, hfail]
    · simp only [restoreWritten, hctx2, hL, List.map_cons, hfail]

/-- Witness for C8: the concrete tag-checking cipher on the one-file
tree, with passphrases [1] and [2]. -/
theorem encrypted_backup_restore_witness :
    (restoreModel cmId (encOpts [1] ("aes-256-gcm"))
        (some (walkEntries cmId (encOpts [1] ("aes-256-gcm")) ivConst "" treeA)) =
          Except.ok true ∧
      restoreWritten cmId (encOpts [1] ("aes-256-gcm"))
        (walkEntries cmId (encOpts [1] ("aes-256-gcm")) ivConst "" treeA) =
        (treeFilesAll "" treeA).map (fun x => (x.1, x.2.2))) ∧
    (treeFilesAll "" treeA ≠ [] →
      (∃ e, restoreModel cmId (encOpts [2] ("aes-256-gcm"))
        (some (walkEntries cmId (encOpts [1] ("aes-256-gcm")) ivConst "" treeA)) =
          Except.error e) ∧
      restoreWritten cmId (encOpts [2] ("aes-256-gcm"))
        (walkEntries cmId (encOpts [1] ("aes-256-gcm")) ivConst "" treeA) = []) :=
  encrypted_backup_restore cmId ivConst treeA [1] [2] ("aes-256-gcm")
    (by decide) (by decide)
    (by intro iv m; simp [cmId])
    (by
      intro iv m
      refine ⟨"Unsupported state or unable to authenticate data", ?_⟩
      simp [cmId])
    (by
      intro iv m hm
      refine ⟨by simpa [cmId] using hm, ?_⟩
      intro t ht b hb
      simp [cmId] at ht
      rw [← ht] at hb
      simp at hb
      omega)
    (by intro iv m hm; simpa [cmId] using hm)
    (by
      intro p
      refine ⟨by simp [ivConst], ?_⟩
      intro b hb
      simp [ivConst] at hb
      omega)
    (by intro n hn; rfl)
    (by intro x hx; rfl)
    (by
      intro x hx
      simp only [treeA, treeFilesAll, joinRel] at hx
      simp at hx
      rw [hx]
      exact ⟨by simp, by decide⟩)

/-! ## C1: compareDetailed immediately after backup -/

/-- C1 evaluation at the failing input: back up the directory holding
the single text file a.txt with content hello, then run compareDetailed
against the unchanged directory (checksum function taken as the
identity on serialized records, which sha3_256 separates exactly when
the serializations differ). The result is NOT the equal comparison the
claim requires: compareDetailed rebuilds the local record with
base64-encoded content and no mimeType while backup stored utf8 content
with a mimeType, so the serialized records differ and the file is
reported as modified: isEqual is false and totalChanges is one
modification. -/
theorem compareDetailed_after_backup_bug :
    (compareDetailedModel (fun s => s) (cdLocalView treeA)
        (walkEntries cmId optsNone ivConst "" treeA)).isEqual = false ∧
    (compareDetailedModel (fun s => s) (cdLocalView treeA)
        (walkEntries cmId optsNone ivConst "" treeA)).added = 0 ∧
    (compareDetailedModel (fun s => s) (cdLocalView treeA)
        (walkEntries cmId optsNone ivConst "" treeA)).modified = 1 ∧
    (compareDetailedModel (fun s => s) (cdLocalView treeA)
        (walkEntries cmId optsNone ivConst "" treeA)).deleted = 0 ∧
    (compareDetailedModel (fun s => s) (cdLocalView treeA)
        (walkEntries cmId optsNone ivConst "" treeA)).differences.map
          (fun d => (d.path, d.dtype)) = [("a.txt", "modified")] := by
  have ht : treeFilesAll "" treeA = [("a.txt", "a.txt", [104, 101, 108, 108, 111])] := by
    simp [treeA, treeFilesAll, joinRel]
  have hw := walkEntries_eq_map cmId optsNone ivConst "" treeA
    (by intro n hn; rfl) (by intro x hx; rfl)
  rw [ht] at hw
  rw [hw]
  exact ⟨rfl, rfl, rfl, rfl, rfl⟩
